import Mathlib

/-!
# Verification of the `named_arrays` core

Shallow embedding of the named-shape and array-abstraction engine of the
`named_arrays` Python library, together with theorems settling the frozen
claims about it.  Python ordered dicts (`dict[str, int]`) are embedded as
association lists in insertion order; exceptions are embedded with `Except`.
-/

namespace NamedArrays

/-- An axis name. -/
abbrev Axis := String

/-- A named shape: ordered mapping from axis name to size, embedded as an
association list in insertion order (Python `dict[str, int]`). -/
abbrev Shape := List (Axis × Nat)

/-- Python `axis in d` / `d[axis]`: value of the first entry with the given
key, if any. -/
def dictGet (d : Shape) (k : Axis) : Option Nat :=
  (d.find? (fun p => p.1 = k)).map Prod.snd

/-- Python `d[axis] = v` on a key already present: replace the stored value,
keeping the key's position (Python dicts preserve insertion position on
update). -/
def dictSet (d : Shape) (k : Axis) (v : Nat) : Shape :=
  d.map (fun p => if p.1 = k then (p.1, v) else p)

/-- The axis names of a shape, in insertion order. -/
def axisNames (d : Shape) : List Axis :=
  d.map Prod.fst

/-- The NamedShape invariant: axis names are unique within one shape. -/
def nodupAxes (d : Shape) : Prop :=
  (axisNames d).Nodup

instance (d : Shape) : Decidable (nodupAxes d) := by
  unfold nodupAxes; infer_instance

/-- One merge step of `broadcast_shapes` (core.py lines 116-126): combine
axis `axis` of size `size` into the accumulated `result`.  If the axis is
new it is appended; if present, equal sizes or a size of 1 are reconciled,
and two distinct non-1 sizes raise `ValueError(f'shapes {shapes} are not
compatible')`, which names all the input shapes — embedded as
`Except.error shapes`. -/
def mergeAxis (shapes : List Shape) (result : Shape) (axis : Axis) (size : Nat) :
    Except (List Shape) Shape :=
  match dictGet result axis with
  | some cur =>
      if cur = size then .ok result
      else if size = 1 then .ok result
      else if cur = 1 then .ok (dictSet result axis size)
      else .error shapes
  | none => .ok (result ++ [(axis, size)])

/-- The inner loop of `broadcast_shapes`: `for axis in reversed(shape)`.
The list argument is already the reversed axis list of one input shape. -/
def mergeShape (shapes : List Shape) (result : Shape) :
    List (Axis × Nat) → Except (List Shape) Shape
  | [] => .ok result
  | (axis, size) :: rest =>
      match mergeAxis shapes result axis size with
      | .ok r => mergeShape shapes r rest
      | .error e => .error e

/-- The outer loop of `broadcast_shapes`: `for shape in shapes`. -/
def mergeShapes (shapes : List Shape) (result : Shape) :
    List Shape → Except (List Shape) Shape
  | [] => .ok result
  | s :: rest =>
      match mergeShape shapes result s.reverse with
      | .ok r => mergeShapes shapes r rest
      | .error e => .error e

/-- `broadcast_shapes(*shapes)` (core.py lines 113-129): merge all input
shapes into an empty ordered dict, scanning each input from its trailing
axis to its leading axis, then reverse the merged insertion order
(`result = {axis: result[axis] for axis in reversed(result)}`). -/
def broadcast_shapes (shapes : List Shape) : Except (List Shape) Shape :=
  (mergeShapes shapes [] shapes).map List.reverse

/-! ## Type-priority resolution (`type_array`, core.py lines 98-110) -/

/-- An operand of `type_array`: either a plain value (`bool`, `int`, `float`,
`complex`, `str`, `np.ndarray`, `Quantity` — anything that is not an
`AbstractArray`), or a named array carrying its explicit type
(`value.type_array`) and that type's `__named_array_priority__`. -/
inductive Operand where
  | plain
  | array (typeName : String) (priority : ℚ)
deriving DecidableEq

/-- One iteration of the loop in `type_array`: a named-array operand whose
priority strictly exceeds the running maximum (initially 0) becomes the new
winner. -/
def type_arrayStep : Option String × ℚ → Operand → Option String × ℚ
  | (cls, pmax), .plain => (cls, pmax)
  | (cls, pmax), .array t p => if p > pmax then (some t, p) else (cls, pmax)

/-- `type_array(*values)` (core.py lines 98-110): fold over the operands with
`cls = None`, `priority_max = 0`, returning the winning explicit type (or
`None` when no named-array operand beat the initial maximum). -/
def type_array (values : List Operand) : Option String :=
  (values.foldl type_arrayStep (none, 0)).1

/-- The named-array operands of a `type_array` call, in order, with their
explicit types and priorities. -/
def arrayOperands (values : List Operand) : List (String × ℚ) :=
  values.filterMap fun v =>
    match v with
    | .plain => none
    | .array t p => some (t, p)

/-- The highest `__named_array_priority__` among the named-array operands
(0 when there are none). -/
def maxPriority (values : List Operand) : ℚ :=
  (arrayOperands values).foldr (fun e m => max e.2 m) 0

/-- The explicit type of the first operand attaining the maximum priority
among the named-array operands — the winner the specification describes. -/
def firstMaxType (values : List Operand) : Option String :=
  ((arrayOperands values).find? (fun e => maxPriority values ≤ e.2)).map Prod.fst

/-! ## Double-dispatch indexing (`AbstractArray.__getitem__`, core.py
lines 449-470) -/

/-- One axis-keyed entry of an indexing item: an integer, a slice, or a
named array (`int | slice | AbstractArray`). -/
inductive SubIndex (A : Type) where
  | int (n : ℤ)
  | slice
  | arr (a : A)

/-- An indexing item: an ordered mapping from axis name to sub-item, or a
single named array (`dict[str, int | slice | AbstractArray] | AbstractArray`). -/
inductive IndexItem (A : Type) where
  | dict (entries : List (String × SubIndex A))
  | arr (a : A)

/-- Result of an indexing handler: a value, or Python's `NotImplemented`. -/
inductive HandlerOutcome (R : Type) where
  | notImpl
  | value (r : R)

/-- A Python exception relevant to this core: a `ValueError` or a
`TypeError`, each carrying its message. -/
inductive PyError where
  | valueError (msg : String)
  | typeError (msg : String)
deriving DecidableEq

/-- Whether a result is a raised `TypeError`. -/
def isTypeErr {R : Type} : Except PyError R → Bool
  | .error (.typeError _) => true
  | _ => false

/-- The fallback loop of `__getitem__` (core.py lines 459-463): for each
axis-keyed sub-item that is a named array, in item order, invoke its
`_getitem_reversed` handler on the target array; the first result that is
not `NotImplemented` wins. -/
def tryReversedHandlers {A R : Type} (gir : A → A → IndexItem A → HandlerOutcome R)
    (self : A) (item : IndexItem A) :
    List (String × SubIndex A) → HandlerOutcome R
  | [] => .notImpl
  | (_, sub) :: rest =>
    match sub with
    | .arr a =>
      match gir a self item with
      | .value r => .value r
      | .notImpl => tryReversedHandlers gir self item rest
    | _ => tryReversedHandlers gir self item rest

/-- `AbstractArray.__getitem__` (core.py lines 449-470), parameterized by the
direct handler `gi` (`_getitem`), the reversed handler `gir`
(`_getitem_reversed`, receiving the handling array, the target array and the
item), and the printed type name of an array.  The direct handler is tried
first; then the reversed handlers of array sub-items (or of the item itself
when it is a single array); if everything returns `NotImplemented`, the call
raises `ValueError(f"item not supported by array with type {type(self)}")`. -/
def getitem {A R : Type} (gi : A → IndexItem A → HandlerOutcome R)
    (gir : A → A → IndexItem A → HandlerOutcome R)
    (typeName : A → String) (self : A) (item : IndexItem A) : Except PyError R :=
  match gi self item with
  | .value r => .ok r
  | .notImpl =>
    match
      (match item with
       | .dict entries => tryReversedHandlers gir self item entries
       | .arr a => gir a self item) with
    | .value r => .ok r
    | .notImpl =>
        .error (.valueError ("item not supported by array with type " ++ typeName self))

/-- A handler result as an `Option`: `NotImplemented` becomes `none`. -/
def HandlerOutcome.toOption {R : Type} : HandlerOutcome R → Option R
  | .notImpl => none
  | .value r => some r

/-- The ordered list of handler results the indexing protocol consults: the
target's own `_getitem`, then the `_getitem_reversed` of every array-valued
axis-keyed sub-item in item order (or of the item itself when it is a single
array). -/
def handlerOutcomes {A R : Type} (gi : A → IndexItem A → HandlerOutcome R)
    (gir : A → A → IndexItem A → HandlerOutcome R)
    (self : A) (item : IndexItem A) : List (HandlerOutcome R) :=
  gi self item ::
    (match item with
     | .dict entries =>
         entries.filterMap fun e =>
           match e.2 with
           | .arr a => some (gir a self item)
           | _ => none
     | .arr a => [gir a self item])

/-- The first non-`NotImplemented` result in a list of handler results. -/
def firstSuccess {R : Type} : List (HandlerOutcome R) → Option R
  | [] => none
  | .value r :: _ => some r
  | .notImpl :: rest => firstSuccess rest

/-- A direct handler that always declines (returns `NotImplemented`). -/
def declineAll : Unit → IndexItem Unit → HandlerOutcome Unit :=
  fun _ _ => .notImpl

/-- A reversed handler that always declines (returns `NotImplemented`). -/
def declineAllReversed : Unit → Unit → IndexItem Unit → HandlerOutcome Unit :=
  fun _ _ _ => .notImpl

/-! ## Linear interpolation (`AbstractArray._interp_linear_recursive`,
core.py lines 619-670), single-axis scalar-coordinate instance -/

/-- Python `int()`: truncation toward zero. -/
def pyInt (q : ℚ) : ℤ :=
  if q < 0 then ⌈q⌉ else ⌊q⌋

/-- The lower integer neighbor `x0` chosen by the scalar branch of
`_interp_linear_recursive` (core.py lines 641-647) for an axis of the given
size: 0 when the coordinate is below 0, `size - 2` when it is at or above
`size - 1`, and `int(x)` otherwise. -/
def interpLowerNeighbor (size : ℕ) (x : ℚ) : ℤ :=
  if x < 0 then 0
  else if (size : ℚ) - 1 ≤ x then (size : ℤ) - 2
  else pyInt x

/-- `interp_linear({axis: x})` on an array over a single axis of the given
size, with a scalar coordinate (core.py lines 619-670).  With one axis the
recursion bottoms out immediately: `x1 = x0 + 1`, `y0 = self[{axis: x0}]`,
`y1 = self[{axis: x1}]`, and the result is `y0 + (x - x0) * (y1 - y0)`.
The array is embedded as its indexing function `A`. -/
def interp_linear (A : ℤ → ℚ) (size : ℕ) (x : ℚ) : ℚ :=
  let x0 := interpLowerNeighbor size x
  let x1 := x0 + 1
  let y0 := A x0
  let y1 := A x1
  y0 + (x - (x0 : ℚ)) * (y1 - y0)

/-! ## Seeded randomness (`AbstractRandomMixin`, core.py lines 830-853;
`random_uniform`, scalar_named_array_functions.py lines 70-79) -/

/-- `AbstractRandomMixin.__post_init__` (core.py lines 834-837): a `None`
seed is replaced, at construction, by a freshly drawn integer
(`random.randint(0, 10 ** 12)`); `fresh` stands for that ambient draw. -/
def post_init_seed (seed : Option ℤ) (fresh : ℤ) : ℤ :=
  match seed with
  | none => fresh
  | some s => s

/-- Which generator `random_uniform` draws from. -/
inductive RngKind where
  | ambient
  | seeded (seed : ℤ)
deriving DecidableEq

/-- The seed dispatch inside `random_uniform`
(scalar_named_array_functions.py lines 70-73): a `None` seed selects the
ambient global generator `np.random.uniform`, an integer seed selects the
freshly constructed seeded generator `np.random.default_rng(seed).uniform`. -/
def random_uniform_rng (seed : Option ℤ) : RngKind :=
  match seed with
  | none => .ambient
  | some s => .seeded s

/-- A random-carrying array object after construction: its stored integer
seed (`__post_init__` guarantees it is never `None`) and its remaining
parameters (`start`, `stop`, `shape_random`, …), abstracted as `P`. -/
structure RandomSampleObj (P : Type) where
  seed : ℤ
  params : P

/-- Construction of a random-carrying object: dataclass initialization
followed by `__post_init__`. -/
def mkRandomSample {P : Type} (seed : Option ℤ) (params : P) (fresh : ℤ) :
    RandomSampleObj P :=
  { seed := post_init_seed seed fresh, params := params }

/-- Materialization of a random-carrying object: it invokes the random
function with its stored integer seed, so the generator chosen is always the
seeded one.  `draw` abstracts the generator collaborator — a pure function of
the generator choice and the parameters, as seeded generation is reproducible
per the collaborator contract. -/
def materialize {P E : Type} (draw : RngKind → P → E) (obj : RandomSampleObj P) : E :=
  draw (random_uniform_rng (some obj.seed)) obj.params

/-! ## Spectral matrices (`AbstractSpectralMatrixArray`,
matrices_spectral.py lines 39-63) -/

/-- The outcome of a Python call: a returned value or a raised exception. -/
inductive PyOutcome (α : Type) where
  | returns (a : α)
  | raises (e : PyError)
deriving DecidableEq

/-- Whether a call outcome is a raised exception. -/
def PyOutcome.isRaise {α : Type} : PyOutcome α → Bool
  | .raises _ => true
  | _ => false

/-- A spectral matrix: a matrix whose single row component is `wavelength`
(it derives from the spectral vector type), the row itself being a vector
abstracted as `V`.  Only the skeleton is needed: the `determinant` and
`inverse` bodies in the source never inspect `self`. -/
structure SpectralMatrixArray (V : Type) where
  wavelength : V

/-- `AbstractSpectralMatrixArray.determinant` (matrices_spectral.py lines
39-46): the entire body, including the `is_square` check and the raise, is
commented out; the method falls through to a bare `return`, i.e. it returns
`None` and raises nothing. -/
def SpectralMatrixArray.determinant {V : Type} (_ : SpectralMatrixArray V) :
    PyOutcome (Option ℚ) :=
  .returns none

/-- `AbstractSpectralMatrixArray.inverse` (matrices_spectral.py lines
48-63): the entire body, including the `is_square` check and the raise, is
commented out; the method falls through to a bare `return`, i.e. it returns
`None` and raises nothing. -/
def SpectralMatrixArray.inverse {V : Type} (_ : SpectralMatrixArray V) :
    PyOutcome (Option (SpectralMatrixArray V)) :=
  .returns none

/-- A concrete non-square spectral matrix: one row (`wavelength`) whose row
vector has two components, so the row count (1) differs from the component
count (2). -/
def nonSquareSpectralMatrix : SpectralMatrixArray (ℚ × ℚ) :=
  ⟨(0, 1)⟩

/-- C2 counterexample: the claim says the shapes `{"x":3,"y":1}` and
`{"y":4,"z":2}` broadcast to the ordered mapping with key sequence
`z, y, x`.  The code actually returns the key sequence `z, x, y` (sizes
2, 3, 4): the merged insertion order is `y, x, z` and the final reversal
yields `z, x, y`. -/
theorem C2_broadcast_example_order_counterexample :
    broadcast_shapes [[("x", 3), ("y", 1)], [("y", 4), ("z", 2)]]
        = .ok [("z", 2), ("x", 3), ("y", 4)]
      ∧ ([("z", 2), ("x", 3), ("y", 4)] : Shape)
        ≠ [("z", 2), ("y", 4), ("x", 3)] := by
  constructor
  · rfl
  · decide

/-- C2 (amended): broadcasting `{"x":3,"y":1}` and `{"y":4,"z":2}`, in that
order, returns exactly the ordered mapping `{"z":2,"x":3,"y":4}` — key
sequence `z, x, y` with sizes 2, 3, 4 — and if the `"y"` sizes were instead
4 and 5, broadcasting raises a shape-mismatch error naming both shapes. -/
theorem C2_broadcast_example :
    broadcast_shapes [[("x", 3), ("y", 1)], [("y", 4), ("z", 2)]]
        = .ok [("z", 2), ("x", 3), ("y", 4)]
      ∧ broadcast_shapes [[("x", 3), ("y", 4)], [("y", 5), ("z", 2)]]
        = .error [[("x", 3), ("y", 4)], [("y", 5), ("z", 2)]] := by
  constructor
  · rfl
  · rfl

/-! ### Ordered-dict lemmas -/

lemma dictGet_cons (p : Axis × Nat) (rest : Shape) (k : Axis) :
    dictGet (p :: rest) k = if p.1 = k then some p.2 else dictGet rest k := by
  by_cases hp : p.1 = k
  · simp [dictGet, List.find?_cons_of_pos, hp]
  · simp only [dictGet]
    rw [List.find?_cons_of_neg _ (by simpa using hp), if_neg hp]

lemma dictSet_cons (p : Axis × Nat) (rest : Shape) (k : Axis) (v : Nat) :
    dictSet (p :: rest) k v = (if p.1 = k then (p.1, v) else p) :: dictSet rest k v :=
  rfl

lemma dictGet_append (d₁ d₂ : Shape) (k : Axis) :
    dictGet (d₁ ++ d₂) k = (dictGet d₁ k).or (dictGet d₂ k) := by
  unfold dictGet
  rw [List.find?_append]
  cases List.find? (fun p => p.1 = k) d₁ <;> simp

lemma dictGet_none_iff (d : Shape) (k : Axis) :
    dictGet d k = none ↔ k ∉ axisNames d := by
  induction d with
  | nil => simp [dictGet, axisNames]
  | cons p rest ih =>
      rw [dictGet_cons]
      by_cases hp : p.1 = k
      · simp [axisNames, hp]
      · simp only [if_neg hp, ih, axisNames, List.map_cons, List.mem_cons]
        constructor
        · intro h hk
          rcases hk with hk | hk
          · exact hp hk.symm
          · exact h hk
        · intro h hk
          exact h (Or.inr hk)

lemma axisNames_dictSet (d : Shape) (k : Axis) (v : Nat) :
    axisNames (dictSet d k v) = axisNames d := by
  unfold axisNames dictSet
  induction d with
  | nil => rfl
  | cons p rest ih =>
      simp only [List.map_cons, ih]
      by_cases hp : p.1 = k <;> simp [hp]

lemma axisNames_append (d₁ d₂ : Shape) :
    axisNames (d₁ ++ d₂) = axisNames d₁ ++ axisNames d₂ := by
  unfold axisNames; simp

lemma axisNames_reverse (d : Shape) :
    axisNames d.reverse = (axisNames d).reverse := by
  unfold axisNames; simp

lemma nodupAxes_reverse (d : Shape) (h : nodupAxes d) : nodupAxes d.reverse := by
  unfold nodupAxes at *
  rw [axisNames_reverse]
  simpa using h

lemma dictGet_dictSet_self (d : Shape) (k : Axis) (v : Nat) (a : Nat)
    (h : dictGet d k = some a) : dictGet (dictSet d k v) k = some v := by
  induction d with
  | nil => simp [dictGet] at h
  | cons p rest ih =>
      rw [dictGet_cons] at h
      rw [dictSet_cons]
      by_cases hp : p.1 = k
      · rw [if_pos hp, dictGet_cons, if_pos hp]
      · rw [if_neg hp] at h
        rw [if_neg hp, dictGet_cons, if_neg hp]
        exact ih h

lemma dictGet_dictSet_ne (d : Shape) (k k' : Axis) (v : Nat) (hk : k' ≠ k) :
    dictGet (dictSet d k v) k' = dictGet d k' := by
  induction d with
  | nil => rfl
  | cons p rest ih =>
      rw [dictSet_cons]
      by_cases hp : p.1 = k
      · have hne : ¬ p.1 = k' := fun h => hk (h ▸ hp)
        rw [if_pos hp, dictGet_cons, dictGet_cons, if_neg hne, if_neg hne]
        exact ih
      · rw [if_neg hp, dictGet_cons, dictGet_cons]
        by_cases hp' : p.1 = k'
        · rw [if_pos hp', if_pos hp']
        · rw [if_neg hp', if_neg hp']
          exact ih

lemma dictGet_reverse (d : Shape) (k : Axis) (h : nodupAxes d) :
    dictGet d.reverse k = dictGet d k := by
  induction d with
  | nil => rfl
  | cons p rest ih =>
      unfold nodupAxes axisNames at h
      simp only [List.map_cons, List.nodup_cons] at h
      obtain ⟨hp, hrest⟩ := h
      rw [List.reverse_cons, dictGet_append, dictGet_cons]
      by_cases hpk : p.1 = k
      · have hnone : dictGet rest.reverse k = none := by
          rw [dictGet_none_iff, axisNames_reverse]
          simp only [List.mem_reverse]
          rw [← hpk]
          exact hp
        rw [hnone, if_pos hpk, dictGet_cons, if_pos hpk]
        rfl
      · rw [if_neg hpk, ih hrest, dictGet_cons, if_neg hpk]
        have hnil : dictGet [] k = none := rfl
        rw [hnil, Option.or_none]

/-! ### Broadcast merge lemmas -/

lemma mergeAxis_none (shapes : List Shape) (res : Shape) (axis : Axis) (size : Nat)
    (h : dictGet res axis = none) :
    mergeAxis shapes res axis size = .ok (res ++ [(axis, size)]) := by
  unfold mergeAxis
  rw [h]

lemma mergeAxis_some (shapes : List Shape) (res : Shape) (axis : Axis) (size cur : Nat)
    (h : dictGet res axis = some cur) :
    mergeAxis shapes res axis size =
      if cur = size then .ok res
      else if size = 1 then .ok res
      else if cur = 1 then .ok (dictSet res axis size)
      else .error shapes := by
  unfold mergeAxis
  rw [h]

lemma mergeAxis_ok_or_err (shapes : List Shape) (res : Shape) (axis : Axis) (size : Nat) :
    (∃ r, mergeAxis shapes res axis size = .ok r) ∨
      mergeAxis shapes res axis size = .error shapes := by
  cases hg : dictGet res axis with
  | none => exact Or.inl ⟨_, mergeAxis_none shapes res axis size hg⟩
  | some cur =>
      rw [mergeAxis_some shapes res axis size cur hg]
      split_ifs
      · exact Or.inl ⟨_, rfl⟩
      · exact Or.inl ⟨_, rfl⟩
      · exact Or.inl ⟨_, rfl⟩
      · exact Or.inr rfl

lemma mergeAxis_get_ne (shapes : List Shape) (res r : Shape) (axis k : Axis) (size : Nat)
    (hax : axis ≠ k) (hok : mergeAxis shapes res axis size = .ok r) :
    dictGet r k = dictGet res k := by
  cases hg : dictGet res axis with
  | none =>
      rw [mergeAxis_none shapes res axis size hg] at hok
      injection hok with hr
      subst hr
      rw [dictGet_append, dictGet_cons, if_neg hax]
      have hnil : dictGet [] k = none := rfl
      rw [hnil, Option.or_none]
  | some cur =>
      rw [mergeAxis_some shapes res axis size cur hg] at hok
      split_ifs at hok
      · injection hok with hr; subst hr; rfl
      · injection hok with hr; subst hr; rfl
      · injection hok with hr
        subst hr
        exact dictGet_dictSet_ne res axis k size (fun h => hax h.symm)

lemma mergeAxis_nodup (shapes : List Shape) (res r : Shape) (axis : Axis) (size : Nat)
    (hn : nodupAxes res) (hok : mergeAxis shapes res axis size = .ok r) :
    nodupAxes r := by
  cases hg : dictGet res axis with
  | none =>
      rw [mergeAxis_none shapes res axis size hg] at hok
      injection hok with hr
      subst hr
      have hmem : axis ∉ axisNames res := (dictGet_none_iff res axis).mp hg
      unfold nodupAxes at *
      rw [axisNames_append]
      have hsing : axisNames [(axis, size)] = [axis] := rfl
      rw [hsing, List.nodup_append]
      refine ⟨hn, List.nodup_singleton axis, ?_⟩
      intro a ha hb
      simp only [List.mem_singleton] at hb
      subst hb
      exact hmem ha
  | some cur =>
      rw [mergeAxis_some shapes res axis size cur hg] at hok
      split_ifs at hok
      · injection hok with hr; subst hr; exact hn
      · injection hok with hr; subst hr; exact hn
      · injection hok with hr
        subst hr
        unfold nodupAxes
        rw [axisNames_dictSet]
        exact hn

lemma mergeShape_cons_ok (shapes : List Shape) (res r : Shape) (axis : Axis) (size : Nat)
    (l : List (Axis × Nat)) (h : mergeAxis shapes res axis size = .ok r) :
    mergeShape shapes res ((axis, size) :: l) = mergeShape shapes r l := by
  have hstep : mergeShape shapes res ((axis, size) :: l) =
      match mergeAxis shapes res axis size with
      | .ok r => mergeShape shapes r l
      | .error e => .error e := rfl
  rw [hstep, h]

lemma mergeShape_cons_err (shapes : List Shape) (res : Shape) (axis : Axis) (size : Nat)
    (l : List (Axis × Nat)) (e : List Shape) (h : mergeAxis shapes res axis size = .error e) :
    mergeShape shapes res ((axis, size) :: l) = .error e := by
  unfold mergeShape
  rw [h]

lemma mergeShape_ok_or_err (shapes : List Shape) (res : Shape) (l : List (Axis × Nat)) :
    (∃ r, mergeShape shapes res l = .ok r) ∨ mergeShape shapes res l = .error shapes := by
  induction l generalizing res with
  | nil => exact Or.inl ⟨res, rfl⟩
  | cons p rest ih =>
      obtain ⟨axis, size⟩ := p
      rcases mergeAxis_ok_or_err shapes res axis size with ⟨r, hr⟩ | herr
      · rw [mergeShape_cons_ok shapes res r axis size rest hr]
        exact ih r
      · exact Or.inr (mergeShape_cons_err shapes res axis size rest shapes herr)

lemma mergeShape_get_not_mem (shapes : List Shape) (res r : Shape) (k : Axis)
    (l : List (Axis × Nat)) (hmem : k ∉ axisNames l)
    (hok : mergeShape shapes res l = .ok r) :
    dictGet r k = dictGet res k := by
  induction l generalizing res with
  | nil =>
      injection hok with hr
      subst hr
      rfl
  | cons p rest ih =>
      obtain ⟨axis, size⟩ := p
      have hax : axis ≠ k := by
        intro h
        apply hmem
        unfold axisNames
        simp [h]
      have hrest : k ∉ axisNames rest := by
        intro h
        apply hmem
        unfold axisNames at *
        simp [h]
      rcases mergeAxis_ok_or_err shapes res axis size with ⟨r₁, hr₁⟩ | herr
      · rw [mergeShape_cons_ok shapes res r₁ axis size rest hr₁] at hok
        rw [ih r₁ hrest hok]
        exact mergeAxis_get_ne shapes res r₁ axis k size hax hr₁
      · rw [mergeShape_cons_err shapes res axis size rest shapes herr] at hok
        cases hok

lemma mergeShape_nodup (shapes : List Shape) (res r : Shape) (l : List (Axis × Nat))
    (hn : nodupAxes res) (hok : mergeShape shapes res l = .ok r) :
    nodupAxes r := by
  induction l generalizing res with
  | nil =>
      injection hok with hr
      subst hr
      exact hn
  | cons p rest ih =>
      obtain ⟨axis, size⟩ := p
      rcases mergeAxis_ok_or_err shapes res axis size with ⟨r₁, hr₁⟩ | herr
      · rw [mergeShape_cons_ok shapes res r₁ axis size rest hr₁] at hok
        exact ih r₁ (mergeAxis_nodup shapes res r₁ axis size hn hr₁) hok
      · rw [mergeShape_cons_err shapes res axis size rest shapes herr] at hok
        cases hok

lemma mergeShape_fresh (shapes : List Shape) (res : Shape) (l : List (Axis × Nat))
    (hdisj : ∀ p ∈ l, dictGet res p.1 = none) (hnl : (axisNames l).Nodup) :
    mergeShape shapes res l = .ok (res ++ l) := by
  induction l generalizing res with
  | nil => rw [List.append_nil]; rfl
  | cons p rest ih =>
      obtain ⟨axis, size⟩ := p
      have hhead : dictGet res axis = none := hdisj (axis, size) (List.mem_cons_self _ _)
      have hstep := mergeAxis_none shapes res axis size hhead
      rw [mergeShape_cons_ok shapes res _ axis size rest hstep]
      have haxrest : axis ∉ axisNames rest := by
        unfold axisNames at hnl
        simp only [List.map_cons, List.nodup_cons] at hnl
        exact hnl.1
      have hdisj' : ∀ p ∈ rest, dictGet (res ++ [(axis, size)]) p.1 = none := by
        intro p hp
        rw [dictGet_append, hdisj p (List.mem_cons_of_mem _ hp), Option.none_or]
        rw [dictGet_cons]
        have hne : ¬ (axis, size).1 = p.1 := by
          intro h
          apply haxrest
          unfold axisNames
          simp only [List.mem_map]
          exact ⟨p, hp, h.symm⟩
        rw [if_neg hne]
        rfl
      have hnl' : (axisNames rest).Nodup := by
        unfold axisNames at *
        simp only [List.map_cons, List.nodup_cons] at hnl
        exact hnl.2
      rw [ih _ hdisj' hnl', List.append_assoc]
      rfl

lemma mergeShape_append (shapes : List Shape) (res : Shape) (l₁ l₂ : List (Axis × Nat)) :
    mergeShape shapes res (l₁ ++ l₂) =
      match mergeShape shapes res l₁ with
      | .ok r => mergeShape shapes r l₂
      | .error e => .error e := by
  induction l₁ generalizing res with
  | nil => rfl
  | cons p rest ih =>
      obtain ⟨axis, size⟩ := p
      rcases mergeAxis_ok_or_err shapes res axis size with ⟨r₁, hr₁⟩ | herr
      · rw [List.cons_append, mergeShape_cons_ok shapes res r₁ axis size (rest ++ l₂) hr₁,
          mergeShape_cons_ok shapes res r₁ axis size rest hr₁]
        exact ih r₁
      · rw [List.cons_append, mergeShape_cons_err shapes res axis size (rest ++ l₂) shapes herr,
          mergeShape_cons_err shapes res axis size rest shapes herr]

lemma mergeShape_get_shared (shapes : List Shape) (res : Shape) (k : Axis) (a b : Nat)
    (l₁ l₂ : List (Axis × Nat)) (h₁ : k ∉ axisNames l₁) (h₂ : k ∉ axisNames l₂)
    (ha : dictGet res k = some a) :
    (∀ r, mergeShape shapes res (l₁ ++ (k, b) :: l₂) = .ok r →
        dictGet r k = some (if a = b then a else if b = 1 then a else b)) ∧
    (a ≠ b → a ≠ 1 → b ≠ 1 →
        mergeShape shapes res (l₁ ++ (k, b) :: l₂) = .error shapes) := by
  rcases mergeShape_ok_or_err shapes res l₁ with ⟨r₁, hr₁⟩ | herr
  · have hcomp : mergeShape shapes res (l₁ ++ (k, b) :: l₂) =
        mergeShape shapes r₁ ((k, b) :: l₂) := by
      rw [mergeShape_append shapes res l₁ ((k, b) :: l₂), hr₁]
    have hget₁ : dictGet r₁ k = some a := by
      rw [mergeShape_get_not_mem shapes res r₁ k l₁ h₁ hr₁]
      exact ha
    have hmerge := mergeAxis_some shapes r₁ k b a hget₁
    by_cases hab : a = b
    · rw [if_pos hab] at hmerge
      constructor
      · intro r hok
        rw [hcomp, mergeShape_cons_ok shapes r₁ r₁ k b l₂ hmerge] at hok
        rw [mergeShape_get_not_mem shapes r₁ r k l₂ h₂ hok, hget₁, if_pos hab]
      · intro hne
        exact absurd hab hne
    · rw [if_neg hab] at hmerge
      by_cases hb1 : b = 1
      · rw [if_pos hb1] at hmerge
        constructor
        · intro r hok
          rw [hcomp, mergeShape_cons_ok shapes r₁ r₁ k b l₂ hmerge] at hok
          rw [mergeShape_get_not_mem shapes r₁ r k l₂ h₂ hok, hget₁, if_neg hab, if_pos hb1]
        · intro _ _ hbne
          exact absurd hb1 hbne
      · rw [if_neg hb1] at hmerge
        by_cases ha1 : a = 1
        · rw [if_pos ha1] at hmerge
          constructor
          · intro r hok
            rw [hcomp, mergeShape_cons_ok shapes r₁ (dictSet r₁ k b) k b l₂ hmerge] at hok
            rw [mergeShape_get_not_mem shapes (dictSet r₁ k b) r k l₂ h₂ hok,
              dictGet_dictSet_self r₁ k b a hget₁, if_neg hab, if_neg hb1]
          · intro _ hane
            exact absurd ha1 hane
        · rw [if_neg ha1] at hmerge
          constructor
          · intro r hok
            rw [hcomp, mergeShape_cons_err shapes r₁ k b l₂ shapes hmerge] at hok
            cases hok
          · intro _ _ _
            rw [hcomp, mergeShape_cons_err shapes r₁ k b l₂ shapes hmerge]
  · have hcomp : mergeShape shapes res (l₁ ++ (k, b) :: l₂) = .error shapes := by
      rw [mergeShape_append shapes res l₁ ((k, b) :: l₂), herr]
    constructor
    · intro r hok
      rw [hcomp] at hok
      cases hok
    · intro _ _ _
      exact hcomp

lemma dictGet_some_split (d : Shape) (k : Axis) (b : Nat) (h : dictGet d k = some b)
    (hn : nodupAxes d) :
    ∃ l₁ l₂, d = l₁ ++ (k, b) :: l₂ ∧ k ∉ axisNames l₁ ∧ k ∉ axisNames l₂ := by
  induction d with
  | nil => cases h
  | cons p rest ih =>
      unfold nodupAxes axisNames at hn
      simp only [List.map_cons, List.nodup_cons] at hn
      obtain ⟨hp₁, hrest⟩ := hn
      rw [dictGet_cons] at h
      by_cases hp : p.1 = k
      · rw [if_pos hp] at h
        injection h with hval
        refine ⟨[], rest, ?_, ?_, ?_⟩
        · have hpair : p = (k, b) := by
            obtain ⟨p₁, p₂⟩ := p
            simp only at hp hval
            rw [hp, hval]
          rw [hpair]
          rfl
        · intro hmem
          cases hmem
        · rw [← hp]
          exact hp₁
      · rw [if_neg hp] at h
        obtain ⟨l₁, l₂, hsplit, hl₁, hl₂⟩ := ih h hrest
        refine ⟨p :: l₁, l₂, by rw [hsplit]; rfl, ?_, hl₂⟩
        intro hmem
        unfold axisNames at hmem
        simp only [List.map_cons, List.mem_cons] at hmem
        rcases hmem with hmem | hmem
        · exact hp hmem.symm
        · exact hl₁ hmem

lemma mergeShapes_cons_ok (shapes : List Shape) (res r : Shape) (s : Shape)
    (rest : List Shape) (h : mergeShape shapes res s.reverse = .ok r) :
    mergeShapes shapes res (s :: rest) = mergeShapes shapes r rest := by
  have hstep : mergeShapes shapes res (s :: rest) =
      match mergeShape shapes res s.reverse with
      | .ok r => mergeShapes shapes r rest
      | .error e => .error e := rfl
  rw [hstep, h]

lemma mergeShapes_cons_err (shapes : List Shape) (res : Shape) (s : Shape)
    (rest : List Shape) (e : List Shape) (h : mergeShape shapes res s.reverse = .error e) :
    mergeShapes shapes res (s :: rest) = .error e := by
  have hstep : mergeShapes shapes res (s :: rest) =
      match mergeShape shapes res s.reverse with
      | .ok r => mergeShapes shapes r rest
      | .error e => .error e := rfl
  rw [hstep, h]

lemma mergeShape_first (shapes : List Shape) (S : Shape) (hS : nodupAxes S) :
    mergeShape shapes [] S.reverse = .ok S.reverse := by
  have hfresh := mergeShape_fresh shapes [] S.reverse (fun p _ => rfl)
    (by rw [axisNames_reverse]; exact List.nodup_reverse.mpr hS)
  simpa using hfresh

lemma mergeShapes_two (shapes : List Shape) (A B : Shape) (hA : nodupAxes A) :
    mergeShapes shapes [] [A, B] = mergeShape shapes A.reverse B.reverse := by
  rw [mergeShapes_cons_ok shapes [] A.reverse A [B] (mergeShape_first shapes A hA)]
  rcases mergeShape_ok_or_err shapes A.reverse B.reverse with ⟨r, hr⟩ | herr
  · rw [mergeShapes_cons_ok shapes A.reverse r B [] hr, hr]
    rfl
  · rw [mergeShapes_cons_err shapes A.reverse B [] shapes herr, herr]

lemma mergeShapes_nodup (shapes : List Shape) (res r : Shape) (l : List Shape)
    (hn : nodupAxes res) (hok : mergeShapes shapes res l = .ok r) :
    nodupAxes r := by
  induction l generalizing res with
  | nil =>
      injection hok with hr
      subst hr
      exact hn
  | cons s rest ih =>
      rcases mergeShape_ok_or_err shapes res s.reverse with ⟨r₁, hr₁⟩ | herr
      · rw [mergeShapes_cons_ok shapes res r₁ s rest hr₁] at hok
        exact ih r₁ (mergeShape_nodup shapes res r₁ s.reverse hn hr₁) hok
      · rw [mergeShapes_cons_err shapes res s rest shapes herr] at hok
        cases hok

lemma broadcast_ok_nodup (shapes : List Shape) (r : Shape)
    (hok : broadcast_shapes shapes = .ok r) : nodupAxes r := by
  unfold broadcast_shapes at hok
  cases hm : mergeShapes shapes [] shapes with
  | error e =>
      rw [hm] at hok
      cases hok
  | ok r₀ =>
      rw [hm] at hok
      have hmap : Except.map List.reverse (.ok r₀ : Except (List Shape) Shape)
          = .ok r₀.reverse := rfl
      rw [hmap] at hok
      injection hok with hr
      subst hr
      exact nodupAxes_reverse r₀
        (mergeShapes_nodup shapes [] r₀ shapes List.nodup_nil hm)

lemma broadcast_single (S : Shape) (hS : nodupAxes S) :
    broadcast_shapes [S] = .ok S := by
  unfold broadcast_shapes
  rw [mergeShapes_cons_ok [S] [] S.reverse S [] (mergeShape_first [S] S hS)]
  have hfin : mergeShapes [S] S.reverse [] = .ok S.reverse := rfl
  rw [hfin]
  have hmap : Except.map List.reverse (.ok S.reverse : Except (List Shape) Shape)
      = .ok S.reverse.reverse := rfl
  rw [hmap, List.reverse_reverse]

lemma broadcast_two_get (A B : Shape) (k : Axis) (a b : Nat)
    (hA : nodupAxes A) (hB : nodupAxes B)
    (ha : dictGet A k = some a) (hb : dictGet B k = some b) :
    (∀ r, broadcast_shapes [A, B] = .ok r →
        dictGet r k = some (if a = b then a else if b = 1 then a else b)) ∧
    (a ≠ b → a ≠ 1 → b ≠ 1 → broadcast_shapes [A, B] = .error [A, B]) := by
  obtain ⟨m₁, m₂, hBsplit, hk₁, hk₂⟩ := dictGet_some_split B k b hb hB
  have hrevsplit : B.reverse = m₂.reverse ++ (k, b) :: m₁.reverse := by
    rw [hBsplit]
    simp
  have hgetArev : dictGet A.reverse k = some a := by
    rw [dictGet_reverse A k hA]
    exact ha
  have hm₂ : k ∉ axisNames m₂.reverse := by
    rw [axisNames_reverse]
    simpa using hk₂
  have hm₁ : k ∉ axisNames m₁.reverse := by
    rw [axisNames_reverse]
    simpa using hk₁
  have hshared := mergeShape_get_shared [A, B] A.reverse k a b m₂.reverse m₁.reverse
    hm₂ hm₁ hgetArev
  have htwo := mergeShapes_two [A, B] A B hA
  constructor
  · intro r hok
    unfold broadcast_shapes at hok
    rw [htwo, hrevsplit] at hok
    cases hm : mergeShape [A, B] A.reverse (m₂.reverse ++ (k, b) :: m₁.reverse) with
    | error e =>
        rw [hm] at hok
        cases hok
    | ok r₀ =>
        rw [hm] at hok
        have hmap : Except.map List.reverse (.ok r₀ : Except (List Shape) Shape)
            = .ok r₀.reverse := rfl
        rw [hmap] at hok
        injection hok with hr
        subst hr
        have hnod₀ : nodupAxes r₀ :=
          mergeShape_nodup [A, B] A.reverse r₀ _ (nodupAxes_reverse A hA) hm
        rw [dictGet_reverse r₀ k hnod₀]
        exact hshared.1 r₀ hm
  · intro hab ha1 hb1
    unfold broadcast_shapes
    rw [htwo, hrevsplit, hshared.2 hab ha1 hb1]
    rfl

/-- C1: for named shapes `A` and `B` sharing an axis `k` with sizes `a` and
`b`, `broadcast_shapes([A, B])` maps `k` to `a` when `a = b`; to the non-1
size when exactly one of `a`, `b` is 1; and fails with a shape-mismatch
error naming the conflicting shapes when `a` and `b` differ and are both
different from 1.  Swapping `A` and `B` never changes the resulting size
for `k`. -/
theorem C1_broadcast_shared_axis (A B : Shape) (k : Axis) (a b : Nat)
    (hA : nodupAxes A) (hB : nodupAxes B)
    (ha : dictGet A k = some a) (hb : dictGet B k = some b) :
    (a = b → ∀ r, broadcast_shapes [A, B] = .ok r → dictGet r k = some a) ∧
    (b = 1 → a ≠ 1 → ∀ r, broadcast_shapes [A, B] = .ok r → dictGet r k = some a) ∧
    (a = 1 → b ≠ 1 → ∀ r, broadcast_shapes [A, B] = .ok r → dictGet r k = some b) ∧
    (a ≠ b → a ≠ 1 → b ≠ 1 → broadcast_shapes [A, B] = .error [A, B]) ∧
    (∀ r r', broadcast_shapes [A, B] = .ok r → broadcast_shapes [B, A] = .ok r' →
        dictGet r k = dictGet r' k) := by
  have hAB := broadcast_two_get A B k a b hA hB ha hb
  have hBA := broadcast_two_get B A k b a hB hA hb ha
  refine ⟨?_, ?_, ?_, hAB.2, ?_⟩
  · intro hab r hok
    rw [hAB.1 r hok, if_pos hab]
  · intro hb1 ha1 r hok
    have hab : ¬ a = b := fun h => ha1 (h.trans hb1)
    rw [hAB.1 r hok, if_neg hab, if_pos hb1]
  · intro ha1 hb1 r hok
    have hab : ¬ a = b := fun h => hb1 (h ▸ ha1)
    rw [hAB.1 r hok, if_neg hab, if_neg hb1]
  · intro r r' hok hok'
    have hcompat : a = b ∨ a = 1 ∨ b = 1 := by
      by_contra hcon
      push_neg at hcon
      rw [hAB.2 hcon.1 hcon.2.1 hcon.2.2] at hok
      cases hok
    rw [hAB.1 r hok, hBA.1 r' hok']
    rcases hcompat with hab | ha1 | hb1
    · subst hab
      simp
    · subst ha1
      by_cases hb1 : b = 1
      · subst hb1
        simp
      · have hab : ¬ (1 : Nat) = b := fun h => hb1 h.symm
        rw [if_neg hab, if_neg hb1, if_neg (fun h => hab h.symm), if_pos rfl]
    · subst hb1
      by_cases ha1 : a = 1
      · subst ha1
        simp
      · have hab : ¬ a = 1 := ha1
        rw [if_neg hab, if_pos rfl, if_neg (fun h => hab h.symm), if_neg ha1]

/-- C1 witness: instantiate at `A = {"k": 3, "u": 2}`, `B = {"k": 1}`,
discharging every hypothesis on concrete shapes: the size-1 axis stretches
to 3. -/
theorem C1_broadcast_shared_axis_witness :
    dictGet [("k", 3), ("u", 2)] "k" = some 3 :=
  (C1_broadcast_shared_axis [("k", 3), ("u", 2)] [("k", 1)] "k" 3 1
      (by decide) (by decide) (by rfl) (by rfl)).2.1 rfl (by decide)
    [("k", 3), ("u", 2)] (by rfl)

/-- C9: broadcasting is an identity on a single shape with unique axis
names — the trailing-to-leading scan followed by the final reversal restores
the original order and sizes — and `broadcast_shapes` is idempotent on its
own outputs. -/
theorem C9_broadcast_identity (S : Shape) (hS : nodupAxes S) :
    broadcast_shapes [S] = .ok S ∧
      ∀ (shapes : List Shape) (r : Shape), broadcast_shapes shapes = .ok r →
        broadcast_shapes [r] = .ok r := by
  refine ⟨broadcast_single S hS, ?_⟩
  intro shapes r hok
  exact broadcast_single r (broadcast_ok_nodup shapes r hok)

/-- C9 witness: instantiate at `S = {"x": 3, "y": 1}`. -/
theorem C9_broadcast_identity_witness :
    broadcast_shapes [[("x", 3), ("y", 1)]] = .ok [("x", 3), ("y", 1)] :=
  (C9_broadcast_identity [("x", 3), ("y", 1)] (by decide)).1

/-! ### Indexing dispatch lemmas -/

lemma tryReversed_firstSuccess {A R : Type} (gir : A → A → IndexItem A → HandlerOutcome R)
    (self : A) (item : IndexItem A) (entries : List (String × SubIndex A)) :
    (tryReversedHandlers gir self item entries).toOption =
      firstSuccess (entries.filterMap fun e =>
        match e.2 with
        | .arr a => some (gir a self item)
        | _ => none) := by
  induction entries with
  | nil => rfl
  | cons e rest ih =>
      obtain ⟨ax, sub⟩ := e
      cases sub with
      | int n => simpa using ih
      | slice => simpa using ih
      | arr a =>
          simp only [tryReversedHandlers, List.filterMap_cons]
          cases gir a self item with
          | value r => rfl
          | notImpl => simpa using ih

/-- C3 counterexample: when the direct handler and every reversed handler
decline, `__getitem__` raises a `ValueError` (core.py line 470), not a
`TypeError` as the claim states — evaluated at a concrete array whose
handlers all return `NotImplemented`. -/
theorem C3_getitem_error_class_counterexample :
    getitem declineAll declineAllReversed (fun _ => "ScalarArray") () (.arr ())
        = .error (.valueError "item not supported by array with type ScalarArray")
      ∧ isTypeErr
          (getitem declineAll declineAllReversed (fun _ => "ScalarArray") () (.arr ()))
          = false :=
  ⟨rfl, rfl⟩

/-- C3 (amended): for every array and index item, `a[item]` first invokes
the array's own `_getitem` and returns its result if it is not
`NotImplemented`; otherwise it invokes, in item order, the
`_getitem_reversed` of each axis-keyed sub-item that is a named array (or of
the item itself when the item is a single named array), returning the first
result that is not `NotImplemented`; and if every handler declines, indexing
fails with a **value** error naming the target's type.  Stated as: the
dispatch equals the first success in the ordered handler list, with the
`ValueError` fallback. -/
theorem C3_getitem_dispatch {A R : Type} (gi : A → IndexItem A → HandlerOutcome R)
    (gir : A → A → IndexItem A → HandlerOutcome R) (typeName : A → String)
    (self : A) (item : IndexItem A) :
    getitem gi gir typeName self item =
      match firstSuccess (handlerOutcomes gi gir self item) with
      | some r => .ok r
      | none =>
          .error (.valueError ("item not supported by array with type " ++ typeName self)) := by
  have hkey : ∀ (o : HandlerOutcome R) (l : List (HandlerOutcome R)),
      o.toOption = firstSuccess l →
        (match o with
         | .value r => (Except.ok r : Except PyError R)
         | .notImpl =>
             .error (.valueError ("item not supported by array with type " ++ typeName self)))
          = match firstSuccess l with
            | some r => .ok r
            | none =>
                .error (.valueError
                  ("item not supported by array with type " ++ typeName self)) := by
    intro o l h
    cases o with
    | value r =>
        rw [← h]
        rfl
    | notImpl =>
        rw [← h]
        rfl
  unfold getitem handlerOutcomes
  cases gi self item with
  | value r => rfl
  | notImpl =>
      cases item with
      | dict entries =>
          exact hkey (tryReversedHandlers gir self (.dict entries) entries) _
            (tryReversed_firstSuccess gir self (.dict entries) entries)
      | arr a =>
          exact hkey (gir a self (.arr a)) [gir a self (.arr a)]
            (by cases gir a self (.arr a) <;> rfl)

/-! ### Interpolation theorems -/

/-- C4: for an explicit array over a single axis of size `n ≥ 2`,
`interp_linear({"i": k})` at an integer grid coordinate `k` in `[0, n-1]`
returns exactly the element `A[{"i": k}]` — including `k = n-1`, where the
clamped lower neighbor is `n-2` and the interpolation weight reaches 1. -/
theorem C4_interp_exact_at_grid (A : ℤ → ℚ) (n k : ℕ) (hn : 2 ≤ n) (hk : k < n) :
    interp_linear A n (k : ℚ) = A k := by
  have hk0 : ¬ ((k : ℚ) < 0) := not_lt.mpr (by positivity)
  by_cases hedge : (n : ℚ) - 1 ≤ (k : ℚ)
  · have hkn : (k : ℤ) = (n : ℤ) - 1 := by
      have h1 : (n : ℚ) ≤ (k : ℚ) + 1 := by linarith
      have h1' : (n : ℤ) ≤ (k : ℤ) + 1 := by exact_mod_cast h1
      have h2 : (k : ℤ) < (n : ℤ) := by exact_mod_cast hk
      omega
    simp only [interp_linear, interpLowerNeighbor, if_neg hk0, if_pos hedge]
    have hsub : ((n : ℤ) - 2) + 1 = (k : ℤ) := by omega
    have hwt : (k : ℚ) - (((n : ℤ) - 2 : ℤ) : ℚ) = 1 := by
      have hcast : ((k : ℤ) : ℚ) = (k : ℚ) := by push_cast; rfl
      rw [← hcast, hkn]
      push_cast
      ring
    rw [hsub, hwt]
    ring
  · simp only [interp_linear, interpLowerNeighbor, pyInt, if_neg hk0, if_neg hedge]
    have hfloor : ⌊(k : ℚ)⌋ = (k : ℤ) := by
      exact_mod_cast Int.floor_natCast k
    rw [hfloor]
    push_cast
    ring

/-- C4 witness: `A = (· * 2)` over an axis of size 3, at `k = 2 = n - 1`:
the result is exactly `A[2] = 4`. -/
theorem C4_interp_exact_at_grid_witness :
    interp_linear (fun i => (i : ℚ) * 2) 3 ((2 : ℕ) : ℚ) = 4 := by
  have h := C4_interp_exact_at_grid (fun i => (i : ℚ) * 2) 3 2 (by norm_num) (by norm_num)
  rw [h]
  norm_num

/-- C5: for an axis of size `n ≥ 2`, the lower neighbor `x0` is 0 when the
coordinate is below 0, `n-2` when it is at or above `n-1`, and `⌊x⌋`
otherwise; `x1 = x0 + 1` stays within `[0, n-1]`, so no out-of-bounds index
is ever accessed; and a coordinate below 0 (such as `-5`) yields the linear
extrapolation through the boundary neighbors `(0, 1)`. -/
theorem C5_interp_boundary_clamp (A : ℤ → ℚ) (n : ℕ) (x : ℚ) (hn : 2 ≤ n) :
    (x < 0 → interpLowerNeighbor n x = 0) ∧
    ((n : ℚ) - 1 ≤ x → interpLowerNeighbor n x = (n : ℤ) - 2) ∧
    (0 ≤ x → x < (n : ℚ) - 1 → interpLowerNeighbor n x = ⌊x⌋) ∧
    (0 ≤ interpLowerNeighbor n x ∧ interpLowerNeighbor n x + 1 ≤ (n : ℤ) - 1) ∧
    (x < 0 → interp_linear A n x = A 0 + x * (A 1 - A 0)) := by
  have hn1 : (1 : ℚ) ≤ (n : ℚ) - 1 := by
    have : (2 : ℚ) ≤ (n : ℚ) := by exact_mod_cast hn
    linarith
  refine ⟨?_, ?_, ?_, ?_, ?_⟩
  · intro hx
    rw [interpLowerNeighbor, if_pos hx]
  · intro hx
    have hx0 : ¬ x < 0 := by linarith
    rw [interpLowerNeighbor, if_neg hx0, if_pos hx]
  · intro hx0 hx1
    rw [interpLowerNeighbor, if_neg (by linarith : ¬ x < 0), if_neg (by linarith : ¬ (n : ℚ) - 1 ≤ x),
      pyInt, if_neg (by linarith : ¬ x < 0)]
  · by_cases hx : x < 0
    · rw [interpLowerNeighbor, if_pos hx]
      constructor
      · exact le_refl 0
      · have : (2 : ℤ) ≤ (n : ℤ) := by exact_mod_cast hn
        omega
    · by_cases hedge : (n : ℚ) - 1 ≤ x
      · rw [interpLowerNeighbor, if_neg hx, if_pos hedge]
        have : (2 : ℤ) ≤ (n : ℤ) := by exact_mod_cast hn
        omega
      · rw [interpLowerNeighbor, if_neg hx, if_neg hedge, pyInt, if_neg hx]
        push_neg at hx hedge
        constructor
        · exact Int.le_floor.mpr (by exact_mod_cast hx)
        · have hlt : ⌊x⌋ < (n : ℤ) - 1 := by
            apply Int.floor_lt.mpr
            push_cast
            linarith
          omega
  · intro hx
    simp only [interp_linear, interpLowerNeighbor, if_pos hx]
    push_cast
    ring_nf

/-- C5 witness: size 3, coordinate `-5`: the lower neighbor is 0 and the
result is the extrapolation through neighbors `(0, 1)` — for `A = id` this
is `-5`. -/
theorem C5_interp_boundary_clamp_witness :
    interpLowerNeighbor 3 (-5) = 0 ∧ interp_linear (fun i => (i : ℚ)) 3 (-5) = -5 := by
  have h := C5_interp_boundary_clamp (fun i => (i : ℚ)) 3 (-5) (by norm_num)
  refine ⟨h.1 (by norm_num), ?_⟩
  rw [h.2.2.2.2 (by norm_num)]
  norm_num

/-! ### Randomness and spectral-matrix theorems -/

/-- C6: for every random-carrying array type, a `None` seed is substituted
exactly once, at construction, by the freshly drawn integer seed; and
materialization is a pure function of the stored seed and parameters, so two
objects constructed with the same explicit seed and parameters materialize
identical explicit arrays on every access (regardless of the ambient fresh
draws at their construction times). -/
theorem C6_random_seed_determinism (P E : Type) (draw : RngKind → P → E)
    (s : ℤ) (p : P) (f₁ f₂ : ℤ) :
    mkRandomSample (some s) p f₁ = mkRandomSample (some s) p f₂
      ∧ materialize draw (mkRandomSample (some s) p f₁)
          = materialize draw (mkRandomSample (some s) p f₂)
      ∧ (mkRandomSample none p f₁).seed = f₁
      ∧ ∀ o : RandomSampleObj P, materialize draw o = draw (.seeded o.seed) o.params :=
  ⟨rfl, rfl, rfl, fun _ => rfl⟩

/-- C8: the spectral-matrix `determinant` and `inverse` evaluated on a
concrete non-square matrix (1 row, 2 columns).  The claim says a dimension
error must be raised; the code's bodies are commented out and both
properties return `None` without raising — the failing behavior of the
code-bug. -/
theorem C8_spectral_non_square_returns_none :
    nonSquareSpectralMatrix.determinant = .returns none
      ∧ nonSquareSpectralMatrix.inverse = .returns none
      ∧ nonSquareSpectralMatrix.determinant.isRaise = false
      ∧ nonSquareSpectralMatrix.inverse.isRaise = false :=
  ⟨rfl, rfl, rfl, rfl⟩

/-! ### Type-priority lemmas -/

lemma maxPriority_cons_plain (rest : List Operand) :
    maxPriority (.plain :: rest) = maxPriority rest :=
  rfl

lemma maxPriority_cons_array (t : String) (p : ℚ) (rest : List Operand) :
    maxPriority (.array t p :: rest) = max p (maxPriority rest) :=
  rfl

lemma maxPriority_nonneg (values : List Operand) : 0 ≤ maxPriority values := by
  induction values with
  | nil => exact le_refl 0
  | cons v rest ih =>
      cases v with
      | plain => rw [maxPriority_cons_plain]; exact ih
      | array t p => rw [maxPriority_cons_array]; exact le_trans ih (le_max_right p _)

lemma maxPriority_ub (values : List Operand) (e : String × ℚ)
    (he : e ∈ arrayOperands values) : e.2 ≤ maxPriority values := by
  induction values with
  | nil => cases he
  | cons v rest ih =>
      cases v with
      | plain =>
          rw [maxPriority_cons_plain]
          exact ih (by simpa [arrayOperands] using he)
      | array t p =>
          rw [maxPriority_cons_array]
          have he' : e = (t, p) ∨ e ∈ arrayOperands rest := by
            simpa [arrayOperands] using he
          rcases he' with he' | he'
          · rw [he']
            exact le_max_left p _
          · exact le_trans (ih he') (le_max_right p _)

lemma maxPriority_le (values : List Operand) (c : ℚ) (hc : 0 ≤ c)
    (h : ∀ e ∈ arrayOperands values, e.2 ≤ c) : maxPriority values ≤ c := by
  induction values with
  | nil => exact hc
  | cons v rest ih =>
      cases v with
      | plain =>
          rw [maxPriority_cons_plain]
          exact ih fun e he => h e (by simpa [arrayOperands] using he)
      | array t p =>
          rw [maxPriority_cons_array]
          have hp : p ≤ c := h (t, p) (by simp [arrayOperands])
          have hrest : maxPriority rest ≤ c :=
            ih fun e he => h e (by simp only [arrayOperands, List.filterMap_cons]; right; exact he)
          exact max_le hp hrest

lemma type_array_foldl_low (values : List Operand) (cls₀ : Option String) (p₀ : ℚ)
    (h : ∀ e ∈ arrayOperands values, e.2 ≤ p₀) :
    values.foldl type_arrayStep (cls₀, p₀) = (cls₀, p₀) := by
  induction values generalizing cls₀ with
  | nil => rfl
  | cons v rest ih =>
      cases v with
      | plain =>
          rw [List.foldl_cons]
          exact ih cls₀ fun e he => h e (by simpa [arrayOperands] using he)
      | array t p =>
          rw [List.foldl_cons]
          have hp : p ≤ p₀ := h (t, p) (by simp [arrayOperands])
          have hstep : type_arrayStep (cls₀, p₀) (.array t p) = (cls₀, p₀) := by
            simp only [type_arrayStep]
            rw [if_neg (not_lt.mpr hp)]
          rw [hstep]
          exact ih cls₀ fun e he =>
            h e (by simp only [arrayOperands, List.filterMap_cons]; right; exact he)

lemma type_array_foldl_high (values : List Operand) (cls₀ : Option String) (p₀ : ℚ)
    (hp₀ : 0 ≤ p₀) (hex : ∃ e ∈ arrayOperands values, p₀ < e.2) :
    values.foldl type_arrayStep (cls₀, p₀) =
      (((arrayOperands values).find?
          (fun e => maxPriority values ≤ e.2)).map Prod.fst,
        maxPriority values) := by
  induction values generalizing cls₀ p₀ with
  | nil =>
      obtain ⟨e, he, _⟩ := hex
      cases he
  | cons v rest ih =>
      cases v with
      | plain =>
          rw [List.foldl_cons]
          have hex' : ∃ e ∈ arrayOperands rest, p₀ < e.2 := by
            obtain ⟨e, he, hlt⟩ := hex
            exact ⟨e, by simpa [arrayOperands] using he, hlt⟩
          have hres := ih cls₀ p₀ hp₀ hex'
          rw [show type_arrayStep (cls₀, p₀) .plain = (cls₀, p₀) from rfl, hres]
          rfl
      | array t p =>
          rw [List.foldl_cons]
          rw [maxPriority_cons_array]
          by_cases hpp₀ : p₀ < p
          · have hstep : type_arrayStep (cls₀, p₀) (.array t p) = (some t, p) := by
              simp only [type_arrayStep]
              rw [if_pos hpp₀]
            rw [hstep]
            by_cases hrest : ∃ e ∈ arrayOperands rest, p < e.2
            · have hres := ih (some t) p (le_of_lt (lt_of_le_of_lt hp₀ hpp₀)) hrest
              obtain ⟨e, he, hlt⟩ := hrest
              have hM : p < maxPriority rest := lt_of_lt_of_le hlt (maxPriority_ub rest e he)
              have hmax : max p (maxPriority rest) = maxPriority rest := max_eq_right (le_of_lt hM)
              rw [hres, hmax, show arrayOperands (Operand.array t p :: rest)
                  = (t, p) :: arrayOperands rest from rfl,
                List.find?_cons_of_neg _ (by simpa using not_le.mpr hM)]
            · have hall : ∀ e ∈ arrayOperands rest, e.2 ≤ p := by
                intro e he
                by_contra hcon
                exact hrest ⟨e, he, not_le.mp hcon⟩
              have hlow := type_array_foldl_low rest (some t) p hall
              rw [hlow]
              have hMrest : maxPriority rest ≤ p :=
                maxPriority_le rest p (le_of_lt (lt_of_le_of_lt hp₀ hpp₀)) hall
              have hmax : max p (maxPriority rest) = p := max_eq_left hMrest
              rw [hmax, show arrayOperands (Operand.array t p :: rest)
                  = (t, p) :: arrayOperands rest from rfl,
                List.find?_cons_of_pos _ (by simp)]
              rfl
          · have hstep : type_arrayStep (cls₀, p₀) (.array t p) = (cls₀, p₀) := by
              simp only [type_arrayStep]
              rw [if_neg hpp₀]
            rw [hstep]
            have hex' : ∃ e ∈ arrayOperands rest, p₀ < e.2 := by
              obtain ⟨e, he, hlt⟩ := hex
              have he' : e = (t, p) ∨ e ∈ arrayOperands rest := by
                simpa [arrayOperands] using he
              rcases he' with he' | he'
              · exfalso
                apply hpp₀
                rw [he'] at hlt
                exact hlt
              · exact ⟨e, he', hlt⟩
            have hres := ih cls₀ p₀ hp₀ hex'
            rw [hres]
            obtain ⟨e, he, hlt⟩ := hex'
            have hM : p < maxPriority rest := by
              have hple : p ≤ p₀ := not_lt.mp hpp₀
              exact lt_of_le_of_lt hple (lt_of_lt_of_le hlt (maxPriority_ub rest e he))
            have hmax : max p (maxPriority rest) = maxPriority rest := max_eq_right (le_of_lt hM)
            rw [hmax]
            rw [show arrayOperands (Operand.array t p :: rest)
                = (t, p) :: arrayOperands rest from rfl,
              List.find?_cons_of_neg _ (by simpa using not_le.mpr hM)]

/-- C7: `type_array(*operands)` returns the explicit array type of the
operand whose `__named_array_priority__` is the highest among the
named-array operands, the first such operand winning ties — provided the
highest priority is positive (the loop's running maximum starts at 0, so a
named-array operand can only win by strictly exceeding it). -/
theorem C7_type_array_highest_priority (values : List Operand)
    (h : 0 < maxPriority values) :
    type_array values = firstMaxType values := by
  have hex : ∃ e ∈ arrayOperands values, (0 : ℚ) < e.2 := by
    by_contra hcon
    push_neg at hcon
    exact absurd (maxPriority_le values 0 (le_refl 0) hcon) (not_le.mpr h)
  unfold type_array firstMaxType
  rw [type_array_foldl_high values none 0 (le_refl 0) hex]

/-- C7 witness: three operands — a plain value, a priority-100 array type
and a priority-200 array type: the priority-200 type wins. -/
theorem C7_type_array_highest_priority_witness :
    type_array [.plain, .array "ScalarArray" 100, .array "UncertainScalarArray" 200]
      = some "UncertainScalarArray" := by
  rw [C7_type_array_highest_priority
    [.plain, .array "ScalarArray" 100, .array "UncertainScalarArray" 200]
    (by decide)]
  rfl

/-- C10: when no operand is a named array, `type_array` returns `None`
r­ather than raising or returning an array type. -/
theorem C10_type_array_no_arrays (values : List Operand)
    (h : ∀ v ∈ values, v = .plain) : type_array values = none := by
  have hops : ∀ e ∈ arrayOperands values, e.2 ≤ (0 : ℚ) := by
    intro e he
    exfalso
    induction values with
    | nil => cases he
    | cons v rest ih =>
        have hv := h v (List.mem_cons_self _ _)
        subst hv
        exact ih (fun w hw => h w (List.mem_cons_of_mem _ hw))
          (by simpa [arrayOperands] using he)
  unfold type_array
  rw [type_array_foldl_low values none 0 hops]

/-- C10 witness: two plain operands. -/
theorem C10_type_array_no_arrays_witness :
    type_array [.plain, .plain] = none :=
  C10_type_array_no_arrays [.plain, .plain] (by decide)

end NamedArrays
